import Mathlib

/-!
Verification of the Desviciar subscription reconciler (src/api/webhook.ts)
and progress aggregator (ProgressScreen: fetchHistory and
processTriggerInsights), shallowly embedded from the TypeScript source.
-/

namespace Desviciar

/-!
## Association lists

Firestore documents, the users collection, the Firebase Auth email
registry and JavaScript objects used as tallies are modelled as
insertion-ordered association lists.
-/

/-- First-match lookup in an association list. -/
def lookupKey : List (String × α) → String → Option α
  | [], _ => none
  | (k, v) :: rest, key => if k = key then some v else lookupKey rest key

/-- Replace the value at a key in place, or append the binding at the end. -/
def setKey : List (String × α) → String → α → List (String × α)
  | [], key, v => [(key, v)]
  | (k, w) :: rest, key, v =>
      if k = key then (k, v) :: rest else (k, w) :: setKey rest key v

/-!
## Subscription reconciler (src/api/webhook.ts)
-/

/-- A Firestore field value. The serverTimestamp constructor is the
sentinel written by FieldValue.serverTimestamp(). -/
inductive Value where
  | str (s : String)
  | serverTimestamp
  | nat (n : Nat)
  deriving DecidableEq, Repr

/-- A user document: field name to value, insertion ordered. -/
abbrev Doc := List (String × Value)

/-- Firebase Auth state: the email registry (email to uid) and a counter
minting fresh uids. -/
structure AuthState where
  users : List (String × String)
  nextUid : Nat
  deriving DecidableEq, Repr

/-- Firestore users collection, keyed by uid. -/
abbrev Firestore := List (String × Doc)

/-- The combined backend state touched by the reconciler. -/
structure SyncState where
  auth : AuthState
  fs : Firestore
  deriving DecidableEq, Repr

/-- The uid minted by auth.createUser for the n-th created account. -/
def mkUid (n : Nat) : String := "uid-" ++ toString n

/-- JavaScript truthiness of an optional string: null, undefined and the
empty string are falsy. -/
def strTruthy : Option String → Bool
  | none => false
  | some s => !(s == "")

/-- The updateData payload assembled by syncSubscription, lines 71-83 of
webhook.ts: subscription_status, updated_at, email, and
stripe_customer_id only when a truthy customerId was passed. -/
def updateData (email status : String) (customerId : Option String) :
    List (String × Value) :=
  [("subscription_status", Value.str status),
   ("updated_at", Value.serverTimestamp),
   ("email", Value.str email)] ++
  (if strTruthy customerId then [("stripe_customer_id", Value.str (customerId.getD ""))]
   else [])

/-- Merge an update payload into an existing document, field by field. -/
def mergeDoc (base : Doc) (upd : List (String × Value)) : Doc :=
  upd.foldl (fun d kv => setKey d kv.1 kv.2) base

/-- db.collection("users").doc(uid).set(updateData, merge true): the
document is created when absent, and only the payload fields are
overwritten when present. -/
def setMerge (fs : Firestore) (uid : String) (upd : List (String × Value)) :
    Firestore :=
  setKey fs uid (mergeDoc ((lookupKey fs uid).getD []) upd)

/-- syncSubscription, lines 48-91 of webhook.ts, with the getUserByEmail
lookup taken on an explicit auth snapshot lookupAuth so that a concurrent
duplicate delivery arriving between the lookup and createUser can be
expressed. createUser on an email already present in the live registry
fails with auth/email-already-exists; that error is raised from inside the
inner catch (which only handles auth/user-not-found) into the outer catch,
which logs and returns false without any Firestore write. -/
def syncSubscriptionAt (lookupAuth : AuthState) (email status : String)
    (customerId : Option String) (s : SyncState) : Bool × SyncState :=
  match lookupKey lookupAuth.users email with
  | some uid =>
      (true, { s with fs := setMerge s.fs uid (updateData email status customerId) })
  | none =>
      match lookupKey s.auth.users email with
      | some _ => (false, s)
      | none =>
          let uid := mkUid s.auth.nextUid
          let auth' : AuthState :=
            { users := s.auth.users ++ [(email, uid)], nextUid := s.auth.nextUid + 1 }
          (true, { auth := auth', fs := setMerge s.fs uid (updateData email status customerId) })

/-- The sequential run of syncSubscription: the lookup and createUser act
on the same auth state. -/
def syncSubscription (email status : String) (customerId : Option String)
    (s : SyncState) : Bool × SyncState :=
  syncSubscriptionAt s.auth email status customerId s

/-- The inbound Stripe events distinguished by the switch of the handler,
with the fields the handler reads from event.data.object. -/
inductive Event where
  | checkoutSessionCompleted (detailsEmail customerEmail : Option String)
      (customer : Option String)
  | invoicePaymentSucceeded (detailsEmail customerEmail : Option String)
      (customer : Option String)
  | invoicePaymentFailed (customerEmail : Option String)
  | customerSubscriptionUpdated (customer : String) (status : String)
  | customerSubscriptionDeleted (customer : String)
  | otherEvent (type : String)
  deriving DecidableEq, Repr

/-- A Stripe customer record as read back by stripe.customers.retrieve. -/
structure CustomerRec where
  email : Option String
  deriving DecidableEq, Repr

/-- An inbound webhook request after raw-body capture: its method, whether
a stripe-signature header is present, whether that signature verifies
against the raw body, and the event the body parses to. -/
structure Req where
  method : String
  hasSig : Bool
  sigValid : Bool
  event : Event
  deriving DecidableEq, Repr

/-- The responses the handler can produce: 405 Method Not Allowed, 400
Webhook Error on signature verification failure, 200 with received true,
and 500 Internal Server Error. -/
inductive HandlerResult where
  | methodNotAllowed
  | webhookError
  | received
  | internalError
  deriving DecidableEq, Repr

/-- The default-exported Vercel handler, lines 96-160 of webhook.ts.
secretSet is whether STRIPE_WEBHOOK_SECRET is nonempty; customers is the
Stripe customers directory consulted by stripe.customers.retrieve, with
none meaning the retrieval throws (caught by the outer try as a 500). -/
def handler (secretSet : Bool) (customers : String → Option CustomerRec)
    (req : Req) (s : SyncState) : HandlerResult × SyncState :=
  if req.method ≠ "POST" then (HandlerResult.methodNotAllowed, s)
  else if !(req.hasSig && secretSet) then (HandlerResult.webhookError, s)
  else if !req.sigValid then (HandlerResult.webhookError, s)
  else
    match req.event with
    | Event.checkoutSessionCompleted de ce cust =>
        let email := if strTruthy de then de else ce
        if strTruthy email then
          (HandlerResult.received, (syncSubscription (email.getD "") "active" cust s).2)
        else (HandlerResult.received, s)
    | Event.invoicePaymentSucceeded de ce cust =>
        let email := if strTruthy de then de else ce
        if strTruthy email then
          (HandlerResult.received, (syncSubscription (email.getD "") "active" cust s).2)
        else (HandlerResult.received, s)
    | Event.invoicePaymentFailed ce =>
        if strTruthy ce then
          (HandlerResult.received, (syncSubscription (ce.getD "") "past_due" none s).2)
        else (HandlerResult.received, s)
    | Event.customerSubscriptionUpdated cust status =>
        match customers cust with
        | none => (HandlerResult.internalError, s)
        | some c =>
            if strTruthy c.email then
              (HandlerResult.received, (syncSubscription (c.email.getD "") status (some cust) s).2)
            else (HandlerResult.received, s)
    | Event.customerSubscriptionDeleted cust =>
        match customers cust with
        | none => (HandlerResult.internalError, s)
        | some c =>
            if strTruthy c.email then
              (HandlerResult.received, (syncSubscription (c.email.getD "") "canceled" none s).2)
            else (HandlerResult.received, s)
    | Event.otherEvent _ => (HandlerResult.received, s)

/-!
## Progress aggregator (ProgressScreen)
-/

/-- Math.round(num / den) for natural num and positive den, computed
exactly on rationals: floor(num/den + 1/2). -/
def jsRound (num den : Nat) : Nat := (2 * num + den) / (2 * den)

/-- A daily_history document; both counters may be absent. -/
structure DailyRecord where
  completed_count : Option Nat
  total_habits : Option Nat
  deriving DecidableEq, Repr

/-- One emitted chart point. Dates are integers counting calendar days. -/
structure ChartDataPoint where
  label : String
  fullDate : Int
  value : Nat
  count : Nat
  dayNumber : Int
  deriving DecidableEq, Repr

/-- The summary statistics next to the chart. -/
structure Stats where
  average : Nat
  perfectDays : Nat
  deriving DecidableEq, Repr

/-- record?.completed_count ?? 0 -/
def dayCount (r : Option DailyRecord) : Nat :=
  (r.bind DailyRecord.completed_count).getD 0

/-- record?.total_habits || 6 : an absent record, an absent field and a
stored 0 all fall back to the default denominator 6. -/
def effTotal (r : Option DailyRecord) : Nat :=
  match r.bind DailyRecord.total_habits with
  | none => 6
  | some 0 => 6
  | some (t + 1) => t + 1

/-- value = Math.min(Math.round((count / totalTasks) * 100), 100). -/
def dayValue (r : Option DailyRecord) : Nat :=
  min (jsRound (dayCount r * 100) (effTotal r)) 100

/-- The running accumulators of the fetchHistory loop. -/
structure HistAcc where
  points : List ChartDataPoint
  totalPercentage : Nat
  perfectCount : Nat
  validDaysCount : Nat
  deriving DecidableEq, Repr

/-- The chart loop of fetchHistory, one step per offset i; the offsets are
processed head first, matching the loop from selectedRange - 1 down to 0.
Days strictly before the streak start (dayNumber < 1) are skipped. -/
def historyLoop (today streakStart : Int) (hist : Int → Option DailyRecord) :
    List Int → HistAcc
  | [] => ⟨[], 0, 0, 0⟩
  | i :: rest =>
      let acc := historyLoop today streakStart hist rest
      let targetDate := today - i
      let dayNumber := targetDate - streakStart + 1
      if dayNumber < 1 then acc
      else
        let r := hist targetDate
        let value := dayValue r
        { points :=
            { label := "D" ++ toString dayNumber, fullDate := targetDate,
              value := value, count := dayCount r, dayNumber := dayNumber } :: acc.points,
          totalPercentage := value + acc.totalPercentage,
          perfectCount := (if value = 100 then 1 else 0) + acc.perfectCount,
          validDaysCount := acc.validDaysCount + 1 }

/-- Offsets selectedRange - 1, ..., 1, 0 in loop order. -/
def offsets (n : Nat) : List Int := List.map Int.ofNat (List.range n).reverse

/-- fetchHistory (ProgressScreen lines 104-164): the emitted chart points
and the summary statistics, given the selected range, today, the streak
start date and the fetched history map. -/
def fetchHistory (selectedRange : Nat) (today streakStart : Int)
    (hist : Int → Option DailyRecord) : List ChartDataPoint × Stats :=
  let acc := historyLoop today streakStart hist (offsets selectedRange)
  (acc.points,
   { average := if acc.validDaysCount > 0 then jsRound acc.totalPercentage acc.validDaysCount
     else 0,
     perfectDays := acc.perfectCount })

/-- One trigger log entry. -/
structure TriggerLog where
  emotion : String
  context : String
  deriving DecidableEq, Repr

/-- counts[k] = (counts[k] || 0) + 1 on an insertion-ordered object. -/
def tallyInc (l : List (String × Nat)) (k : String) : List (String × Nat) :=
  setKey l k (((lookupKey l k).getD 0) + 1)

/-- The occurrence tally of a key list, in first-occurrence order. -/
def tally (keys : List String) : List (String × Nat) :=
  keys.foldl tallyInc []

/-- One step of the maximum scan: the accumulator is replaced only by a
strictly larger count, so the first maximal entry wins. -/
def maxStep (m x : String × Nat) : String × Nat := if x.2 > m.2 then x else m

/-- The scan keeping the first entry with a strictly larger count,
starting from the empty name with count 0. -/
def firstMax (l : List (String × Nat)) : String × Nat :=
  l.foldl maxStep ("", 0)

/-- A top emotion or context entry of the insight. -/
structure TopEntry where
  name : String
  count : Nat
  percentage : Nat
  deriving DecidableEq, Repr

/-- The trigger insight view model. -/
structure TriggerInsight where
  totalLogs : Nat
  topEmotion : Option TopEntry
  topContext : Option TopEntry
  ranking : List (String × Nat)
  deriving DecidableEq, Repr

/-- The comparator (a, b) => b.count - a.count handed to the stable
Array.prototype.sort: a may stay before b exactly when b.count ≤ a.count. -/
def rankLE (a b : String × Nat) : Bool := b.2 ≤ a.2

/-- processTriggerInsights (ProgressScreen lines 166-204). -/
def processTriggerInsights (logs : List TriggerLog) : TriggerInsight :=
  if logs.length = 0 then
    { totalLogs := 0, topEmotion := none, topContext := none, ranking := [] }
  else
    let emotionCounts := tally (logs.map TriggerLog.emotion)
    let contextCounts := tally (logs.map TriggerLog.context)
    let maxEmotion := firstMax emotionCounts
    let maxContext := firstMax contextCounts
    let ranking := (emotionCounts.mergeSort rankLE).take 3
    let topE : TopEntry :=
      ⟨maxEmotion.1, maxEmotion.2, jsRound (maxEmotion.2 * 100) logs.length⟩
    let topC : TopEntry :=
      ⟨maxContext.1, maxContext.2, jsRound (maxContext.2 * 100) logs.length⟩
    { totalLogs := logs.length, topEmotion := some topE, topContext := some topC,
      ranking := ranking }

/-!
## Concrete sample data used to exercise the definitions
-/

/-- An empty backend: no auth accounts, no documents. -/
def stateEmpty : SyncState := ⟨⟨[], 0⟩, []⟩

/-- A backend in which the account for a\x40b.c already exists. -/
def stateWithUser : SyncState := ⟨⟨[("a@b.c", "uid-0")], 1⟩, []⟩

/-- An auth snapshot in which no account exists yet. -/
def authSnapshotEmpty : AuthState := ⟨[], 0⟩

/-- A sample history map: day 10 has 3 of 6 habits, day 11 has 6 of 6,
day 12 has 10 of 6, every other day has no record. -/
def sampleHist : Int → Option DailyRecord := fun d =>
  if d = 10 then some ⟨some 3, some 6⟩
  else if d = 11 then some ⟨some 6, some 6⟩
  else if d = 12 then some ⟨some 10, some 6⟩
  else none

/-- The tally scenario of the spec: anxiety 5, boredom 3, anger 3. -/
def sampleLogs : List TriggerLog :=
  List.replicate 5 ⟨"anxiety", "home"⟩ ++
  List.replicate 3 ⟨"boredom", "work"⟩ ++
  List.replicate 3 ⟨"anger", "home"⟩

/-- A Stripe customers directory holding one customer. -/
def sampleCustomers : String → Option CustomerRec := fun cid =>
  if cid = "cus_1" then some ⟨some "a@b.c"⟩ else none

/-- The field of a user document, read through the collection. -/
def getField (fs : Firestore) (uid k : String) : Option Value :=
  (lookupKey fs uid).bind (fun d => lookupKey d k)

/-!
## Association list lemmas
-/

theorem lookup_setKey_self (l : List (String × α)) (k : String) (v : α) :
    lookupKey (setKey l k v) k = some v := by
  induction l with
  | nil => simp [setKey, lookupKey]
  | cons kv rest ih =>
      obtain ⟨k1, w⟩ := kv
      by_cases h : k1 = k
      · simp [setKey, lookupKey, h]
      · simp [setKey, lookupKey, h, ih]

theorem lookup_setKey_ne (l : List (String × α)) (k k' : String) (v : α)
    (h : k' ≠ k) : lookupKey (setKey l k v) k' = lookupKey l k' := by
  induction l with
  | nil => simp [setKey, lookupKey, Ne.symm h]
  | cons kv rest ih =>
      obtain ⟨k1, w⟩ := kv
      by_cases h1 : k1 = k
      · subst h1
        simp [setKey, lookupKey, Ne.symm h]
      · simp [setKey, lookupKey, h1, ih]

theorem setKey_eq_of_lookup (l : List (String × α)) (k : String) (v : α)
    (h : lookupKey l k = some v) : setKey l k v = l := by
  induction l with
  | nil => simp [lookupKey] at h
  | cons kv rest ih =>
      obtain ⟨k1, w⟩ := kv
      by_cases h1 : k1 = k
      · subst h1
        simp [lookupKey] at h
        simp [setKey, h]
      · simp [lookupKey, h1] at h
        simp [setKey, h1, ih h]

theorem lookup_append (l1 l2 : List (String × α)) (k : String) :
    lookupKey (l1 ++ l2) k =
      match lookupKey l1 k with
      | some v => some v
      | none => lookupKey l2 k := by
  induction l1 with
  | nil => simp [lookupKey]
  | cons kv rest ih =>
      obtain ⟨k1, w⟩ := kv
      by_cases h : k1 = k
      · simp [lookupKey, h]
      · simp [lookupKey, h, ih]

theorem mem_setKey (l : List (String × α)) (k : String) (v : α) (x : String × α)
    (h : x ∈ setKey l k v) : x = (k, v) ∨ x ∈ l := by
  induction l with
  | nil =>
      simp [setKey] at h
      simp [h]
  | cons kv rest ih =>
      obtain ⟨k1, w⟩ := kv
      by_cases h1 : k1 = k
      · subst h1
        simp [setKey] at h
        rcases h with h | h
        · left; simp [h]
        · right; simp [h]
      · simp [setKey, h1] at h
        rcases h with h | h
        · right; simp [h]
        · rcases ih h with h2 | h2
          · left; exact h2
          · right; simp [h2]

theorem lookup_eq_some_mem (l : List (String × α)) (k : String) (v : α)
    (h : lookupKey l k = some v) : (k, v) ∈ l := by
  induction l with
  | nil => simp [lookupKey] at h
  | cons kv rest ih =>
      obtain ⟨k1, w⟩ := kv
      by_cases h1 : k1 = k
      · subst h1
        simp [lookupKey] at h
        simp [h]
      · simp [lookupKey, h1] at h
        simp [ih h]

theorem lookup_eq_none_iff (l : List (String × α)) (k : String) :
    lookupKey l k = none ↔ k ∉ l.map Prod.fst := by
  induction l with
  | nil => simp [lookupKey]
  | cons kv rest ih =>
      obtain ⟨k1, w⟩ := kv
      by_cases h : k1 = k
      · simp [lookupKey, h]
      · simp [lookupKey, h, ih, Ne.symm h]

theorem mem_lookup_of_nodup (l : List (String × α)) (k : String) (v : α)
    (hnd : (l.map Prod.fst).Nodup) (h : (k, v) ∈ l) : lookupKey l k = some v := by
  induction l with
  | nil => simp at h
  | cons kv rest ih =>
      obtain ⟨k1, w⟩ := kv
      simp only [List.map_cons, List.nodup_cons] at hnd
      rcases List.mem_cons.mp h with h1 | h1
      · injection h1 with hk hv
        subst hk
        subst hv
        simp [lookupKey]
      · by_cases h2 : k1 = k
        · exact absurd (h2 ▸ List.mem_map_of_mem Prod.fst h1) hnd.1
        · simp only [lookupKey, if_neg h2]
          exact ih hnd.2 h1

/-!
## Merge-write lemmas
-/

theorem mergeDoc_cons (d : Doc) (kv : String × Value) (rest : List (String × Value)) :
    mergeDoc d (kv :: rest) = mergeDoc (setKey d kv.1 kv.2) rest := rfl

theorem lookup_mergeDoc_notMem (d : Doc) (upd : List (String × Value)) (k : String)
    (h : k ∉ upd.map Prod.fst) : lookupKey (mergeDoc d upd) k = lookupKey d k := by
  induction upd generalizing d with
  | nil => rfl
  | cons kv rest ih =>
      simp only [List.map_cons, List.mem_cons, not_or] at h
      rw [mergeDoc_cons, ih _ h.2]
      exact lookup_setKey_ne _ _ _ _ h.1

theorem lookup_mergeDoc_mem (d : Doc) (upd : List (String × Value)) (k : String) (v : Value)
    (hnd : (upd.map Prod.fst).Nodup) (h : (k, v) ∈ upd) :
    lookupKey (mergeDoc d upd) k = some v := by
  induction upd generalizing d with
  | nil => simp at h
  | cons kv rest ih =>
      obtain ⟨k1, w⟩ := kv
      simp only [List.map_cons, List.nodup_cons] at hnd
      rcases List.mem_cons.mp h with h1 | h1
      · injection h1 with hk hv
        subst hk
        subst hv
        rw [mergeDoc_cons, lookup_mergeDoc_notMem _ _ _ hnd.1]
        exact lookup_setKey_self _ _ _
      · rw [mergeDoc_cons]
        exact ih _ hnd.2 h1

theorem mergeDoc_eq_of_lookup (d : Doc) (upd : List (String × Value))
    (h : ∀ kv ∈ upd, lookupKey d kv.1 = some kv.2) : mergeDoc d upd = d := by
  induction upd generalizing d with
  | nil => rfl
  | cons kv rest ih =>
      rw [mergeDoc_cons, setKey_eq_of_lookup _ _ _ (h kv (List.mem_cons_self kv rest))]
      exact ih _ (fun kv2 hm => h kv2 (List.mem_cons_of_mem kv hm))

theorem mergeDoc_idem (d : Doc) (upd : List (String × Value))
    (hnd : (upd.map Prod.fst).Nodup) :
    mergeDoc (mergeDoc d upd) upd = mergeDoc d upd :=
  mergeDoc_eq_of_lookup _ _ (fun kv hm =>
    lookup_mergeDoc_mem d upd kv.1 kv.2 hnd (by simpa using hm))

theorem setMerge_stable (fs : Firestore) (uid : String) (upd : List (String × Value))
    (hnd : (upd.map Prod.fst).Nodup) :
    setMerge (setMerge fs uid upd) uid upd = setMerge fs uid upd := by
  unfold setMerge
  rw [lookup_setKey_self]
  simp only [Option.getD_some]
  rw [mergeDoc_idem _ _ hnd]
  exact setKey_eq_of_lookup _ _ _ (lookup_setKey_self _ _ _)

theorem getField_setMerge_ne (fs : Firestore) (uid' k uid : String)
    (upd : List (String × Value)) (hk : k ∉ upd.map Prod.fst) :
    getField (setMerge fs uid upd) uid' k = getField fs uid' k := by
  unfold getField setMerge
  by_cases h : uid' = uid
  · subst h
    rw [lookup_setKey_self]
    show lookupKey (mergeDoc ((lookupKey fs uid').getD []) upd) k = _
    rw [lookup_mergeDoc_notMem _ _ _ hk]
    cases lookupKey fs uid' <;> rfl
  · rw [lookup_setKey_ne _ _ _ _ h]

/-!
## The updateData payload
-/

theorem updateData_keys (email status : String) (c : Option String) :
    (updateData email status c).map Prod.fst =
      if strTruthy c then
        ["subscription_status", "updated_at", "email", "stripe_customer_id"]
      else ["subscription_status", "updated_at", "email"] := by
  by_cases h : strTruthy c <;> simp [updateData, h]

theorem updateData_keys_nodup (email status : String) (c : Option String) :
    ((updateData email status c).map Prod.fst).Nodup := by
  rw [updateData_keys]
  by_cases h : strTruthy c
  · rw [if_pos h]; decide
  · rw [if_neg h]; decide

/-!
## Reconciler theorems
-/

theorem syncSubscription_fs (email status : String) (c : Option String) (s : SyncState) :
    ∃ u, ((syncSubscription email status c s).2).fs =
      setMerge s.fs u (updateData email status c) := by
  unfold syncSubscription syncSubscriptionAt
  cases hl : lookupKey s.auth.users email with
  | some uid => exact ⟨uid, by simp [hl]⟩
  | none => exact ⟨mkUid s.auth.nextUid, by simp [hl]⟩

/-- C1. Applying syncSubscription twice with the same email, status and
customerId arguments yields the same final backend state (Firebase Auth
identities plus Firestore user documents) as applying it once; after the
first application the email already resolves to a uid, so the second
application provisions no second identity and leaves the auth state
untouched. -/
theorem syncSubscription_idempotent (email status : String) (c : Option String)
    (s : SyncState) :
    (syncSubscription email status c ((syncSubscription email status c s).2)).2 =
      (syncSubscription email status c s).2 ∧
    (∃ uid, lookupKey ((syncSubscription email status c s).2).auth.users email = some uid) ∧
    ((syncSubscription email status c ((syncSubscription email status c s).2)).2).auth =
      ((syncSubscription email status c s).2).auth := by
  cases hl : lookupKey s.auth.users email with
  | some uid =>
      have h1 : (syncSubscription email status c s).2 =
          { s with fs := setMerge s.fs uid (updateData email status c) } := by
        simp [syncSubscription, syncSubscriptionAt, hl]
      have h2 : (syncSubscription email status c ((syncSubscription email status c s).2)).2 =
          (syncSubscription email status c s).2 := by
        rw [h1]
        have h3 : (syncSubscription email status c
            ({ s with fs := setMerge s.fs uid (updateData email status c) } : SyncState)).2 =
            (⟨s.auth, setMerge (setMerge s.fs uid (updateData email status c)) uid
              (updateData email status c)⟩ : SyncState) := by
          simp [syncSubscription, syncSubscriptionAt, hl]
        rw [h3, setMerge_stable _ _ _ (updateData_keys_nodup email status c)]
      exact ⟨h2, ⟨uid, by rw [h1]; exact hl⟩, by rw [h2]⟩
  | none =>
      have hl2 : lookupKey (s.auth.users ++ [(email, mkUid s.auth.nextUid)]) email =
          some (mkUid s.auth.nextUid) := by
        rw [lookup_append, hl]
        simp [lookupKey]
      have h1 : (syncSubscription email status c s).2 =
          ⟨⟨s.auth.users ++ [(email, mkUid s.auth.nextUid)], s.auth.nextUid + 1⟩,
            setMerge s.fs (mkUid s.auth.nextUid) (updateData email status c)⟩ := by
        simp [syncSubscription, syncSubscriptionAt, hl]
      have h2 : (syncSubscription email status c ((syncSubscription email status c s).2)).2 =
          (syncSubscription email status c s).2 := by
        rw [h1]
        have h3 : (syncSubscription email status c
            (⟨⟨s.auth.users ++ [(email, mkUid s.auth.nextUid)], s.auth.nextUid + 1⟩,
              setMerge s.fs (mkUid s.auth.nextUid) (updateData email status c)⟩ : SyncState)).2 =
            ⟨⟨s.auth.users ++ [(email, mkUid s.auth.nextUid)], s.auth.nextUid + 1⟩,
              setMerge (setMerge s.fs (mkUid s.auth.nextUid) (updateData email status c))
                (mkUid s.auth.nextUid) (updateData email status c)⟩ := by
          simp [syncSubscription, syncSubscriptionAt, hl2]
        rw [h3, setMerge_stable _ _ _ (updateData_keys_nodup email status c)]
      exact ⟨h2, ⟨mkUid s.auth.nextUid, by rw [h1]; exact hl2⟩, by rw [h2]⟩

/-- C3. The Firestore upsert of the reconciler writes only the fields
subscription_status, updated_at, email and, when a truthy customerId was
passed, stripe_customer_id: every other field of every user document
reads the same after reconciliation as before. -/
theorem syncSubscription_frame (email status : String) (c : Option String) (s : SyncState)
    (uid k : String)
    (h1 : k ≠ "subscription_status") (h2 : k ≠ "updated_at") (h3 : k ≠ "email")
    (h4 : strTruthy c = true → k ≠ "stripe_customer_id") :
    getField ((syncSubscription email status c s).2).fs uid k = getField s.fs uid k := by
  have hk : k ∉ (updateData email status c).map Prod.fst := by
    rw [updateData_keys]
    by_cases hc : strTruthy c
    · simp [hc, h1, h2, h3, h4 hc]
    · simp [hc, h1, h2, h3]
  obtain ⟨u, hu⟩ := syncSubscription_fs email status c s
  rw [hu]
  exact getField_setMerge_ne s.fs uid k u _ hk

/-- C4 counterexample. A concrete create-when-exists conflict: the
getUserByEmail lookup ran against a snapshot with no account, but a
concurrent duplicate delivery has already registered a\x40b.c, so
auth.createUser fails with auth/email-already-exists. The reconciler
returns false — reporting the event sync as failed — and the state is
completely unchanged: in particular no Firestore upsert occurs, contrary
to the claim that the failure is treated as success and the upsert still
happens. -/
theorem syncSubscription_conflict_cex :
    syncSubscriptionAt authSnapshotEmpty "a@b.c" "active" none stateWithUser =
      (false, stateWithUser) ∧ stateWithUser.fs = [] := by
  constructor
  · rfl
  · rfl

/-- C4 amended. If identity creation fails because the account already
exists (the lookup snapshot missed the account but the live registry has
it, as under a concurrent duplicate delivery), the reconciler catches the
failure — no exception escapes — but it does not treat it as success: it
returns false and performs no Firestore write, leaving the state exactly
as it was. -/
theorem syncSubscription_conflict (lookupAuth : AuthState) (email status : String)
    (c : Option String) (s : SyncState) (u : String)
    (h1 : lookupKey lookupAuth.users email = none)
    (h2 : lookupKey s.auth.users email = some u) :
    syncSubscriptionAt lookupAuth email status c s = (false, s) := by
  simp [syncSubscriptionAt, h1, h2]

/-- Witness for the C4 amended theorem at concrete inputs. -/
theorem syncSubscription_conflict_witness :
    syncSubscriptionAt ⟨[], 5⟩ "x@y.z" "past_due" (some "cus_9")
      ⟨⟨[("x@y.z", "uid-3")], 4⟩, []⟩ = (false, ⟨⟨[("x@y.z", "uid-3")], 4⟩, []⟩) :=
  syncSubscription_conflict ⟨[], 5⟩ "x@y.z" "past_due" (some "cus_9")
    ⟨⟨[("x@y.z", "uid-3")], 4⟩, []⟩ "uid-3" rfl rfl

/-- C2. On a verified POST request the handler maps each event type to
exactly the specified subscription status: checkout completed and invoice
payment succeeded reconcile with status active, invoice payment failed
with past_due, customer subscription updated passes the provider-reported
status through verbatim, customer subscription deleted reconciles with
canceled, and an unrecognized event type performs no write at all while
the handler still answers 200 with received true. -/
theorem handler_event_mapping (customers : String → Option CustomerRec) (s : SyncState) :
    (∀ de ce cust, strTruthy (if strTruthy de then de else ce) = true →
      handler true customers ⟨"POST", true, true, Event.checkoutSessionCompleted de ce cust⟩ s =
        (HandlerResult.received,
          (syncSubscription ((if strTruthy de then de else ce).getD "") "active" cust s).2)) ∧
    (∀ de ce cust, strTruthy (if strTruthy de then de else ce) = true →
      handler true customers ⟨"POST", true, true, Event.invoicePaymentSucceeded de ce cust⟩ s =
        (HandlerResult.received,
          (syncSubscription ((if strTruthy de then de else ce).getD "") "active" cust s).2)) ∧
    (∀ ce, strTruthy ce = true →
      handler true customers ⟨"POST", true, true, Event.invoicePaymentFailed ce⟩ s =
        (HandlerResult.received, (syncSubscription (ce.getD "") "past_due" none s).2)) ∧
    (∀ cust status cr, customers cust = some cr → strTruthy cr.email = true →
      handler true customers ⟨"POST", true, true, Event.customerSubscriptionUpdated cust status⟩ s =
        (HandlerResult.received,
          (syncSubscription (cr.email.getD "") status (some cust) s).2)) ∧
    (∀ cust cr, customers cust = some cr → strTruthy cr.email = true →
      handler true customers ⟨"POST", true, true, Event.customerSubscriptionDeleted cust⟩ s =
        (HandlerResult.received, (syncSubscription (cr.email.getD "") "canceled" none s).2)) ∧
    (∀ t, handler true customers ⟨"POST", true, true, Event.otherEvent t⟩ s =
      (HandlerResult.received, s)) := by
  refine ⟨?_, ?_, ?_, ?_, ?_, ?_⟩ <;> intros <;> simp_all [handler]

/-- Witness for the C2 mapping theorem at concrete inputs. -/
theorem handler_event_mapping_witness :
    handler true sampleCustomers ⟨"POST", true, true, Event.invoicePaymentFailed (some "a@b.c")⟩
        stateEmpty =
      (HandlerResult.received, (syncSubscription "a@b.c" "past_due" none stateEmpty).2) ∧
    handler true sampleCustomers ⟨"POST", true, true, Event.otherEvent "payment_intent.created"⟩
        stateEmpty = (HandlerResult.received, stateEmpty) :=
  ⟨(handler_event_mapping sampleCustomers stateEmpty).2.2.1 (some "a@b.c") rfl,
   (handler_event_mapping sampleCustomers stateEmpty).2.2.2.2.2 "payment_intent.created"⟩

/-- C5. A POST request whose signature verification fails — missing
stripe-signature header, missing webhook secret, or an invalid signature —
is rejected with the 400 Webhook Error response and mutates nothing: the
auth and Firestore state comes back unchanged, so no identity is created
and no document is written. -/
theorem handler_bad_signature (secretSet : Bool) (customers : String → Option CustomerRec)
    (req : Req) (s : SyncState) (hm : req.method = "POST")
    (hv : (req.hasSig && secretSet && req.sigValid) = false) :
    handler secretSet customers req s = (HandlerResult.webhookError, s) := by
  obtain ⟨m, hs, sv, ev⟩ := req
  simp only at hm
  subst hm
  cases hs <;> cases secretSet <;> cases sv <;> simp_all [handler]

/-- Witness for the C5 rejection theorem at concrete inputs. -/
theorem handler_bad_signature_witness :
    handler false sampleCustomers ⟨"POST", true, true, Event.otherEvent "evt"⟩ stateWithUser =
      (HandlerResult.webhookError, stateWithUser) :=
  handler_bad_signature false sampleCustomers ⟨"POST", true, true, Event.otherEvent "evt"⟩
    stateWithUser rfl rfl

/-- Witness for the C3 frame theorem at concrete inputs. -/
theorem syncSubscription_frame_witness :
    getField ((syncSubscription "a@b.c" "active" (some "cus_1") stateWithUser).2).fs
        "uid-0" "onboarding_done" =
      getField stateWithUser.fs "uid-0" "onboarding_done" :=
  syncSubscription_frame "a@b.c" "active" (some "cus_1") stateWithUser "uid-0"
    "onboarding_done" (by decide) (by decide) (by decide) (fun _ => by decide)

/-!
## Aggregator lemmas
-/

theorem historyLoop_spec (today ss : Int) (hist : Int → Option DailyRecord) (l : List Int) :
    (historyLoop today ss hist l).points.length ≤ l.length ∧
    (∀ p ∈ (historyLoop today ss hist l).points,
      (∃ i ∈ l, p.fullDate = today - i) ∧
      1 ≤ p.dayNumber ∧ p.dayNumber = p.fullDate - ss + 1 ∧
      p.value = dayValue (hist p.fullDate) ∧ p.count = dayCount (hist p.fullDate)) ∧
    (historyLoop today ss hist l).totalPercentage =
      ((historyLoop today ss hist l).points.map ChartDataPoint.value).sum ∧
    (historyLoop today ss hist l).perfectCount =
      ((historyLoop today ss hist l).points.filter (fun p => p.value = 100)).length ∧
    (historyLoop today ss hist l).validDaysCount = (historyLoop today ss hist l).points.length := by
  induction l with
  | nil => simp [historyLoop]
  | cons i rest ih =>
      obtain ⟨ih1, ih2, ih3, ih4, ih5⟩ := ih
      simp only [historyLoop]
      by_cases hd : today - i - ss + 1 < 1
      · rw [if_pos hd]
        refine ⟨Nat.le_succ_of_le ih1, ?_, ih3, ih4, ih5⟩
        intro p hp
        obtain ⟨⟨j, hj, hfd⟩, h2⟩ := ih2 p hp
        exact ⟨⟨j, List.mem_cons_of_mem i hj, hfd⟩, h2⟩
      · rw [if_neg hd]
        refine ⟨by simpa using Nat.succ_le_succ ih1, ?_, ?_, ?_, ?_⟩
        · intro p hp
          rcases List.mem_cons.mp hp with hp | hp
          · subst hp
            exact ⟨⟨i, List.mem_cons_self i rest, rfl⟩,
              by show 1 ≤ today - i - ss + 1; omega, rfl, rfl, rfl⟩
          · obtain ⟨⟨j, hj, hfd⟩, h2⟩ := ih2 p hp
            exact ⟨⟨j, List.mem_cons_of_mem i hj, hfd⟩, h2⟩
        · simp [ih3]
        · by_cases hv : dayValue (hist (today - i)) = 100
          · simp [hv, ih4]
            omega
          · simp [hv, ih4]
        · simp [ih5]

theorem historyLoop_sorted (today ss : Int) (hist : Int → Option DailyRecord) (l : List Int)
    (hl : l.Pairwise (fun a b => b < a)) :
    (historyLoop today ss hist l).points.Pairwise (fun p q => p.fullDate < q.fullDate) := by
  induction l with
  | nil => simp [historyLoop]
  | cons i rest ih =>
      rw [List.pairwise_cons] at hl
      obtain ⟨h1, h2⟩ := hl
      simp only [historyLoop]
      by_cases hd : today - i - ss + 1 < 1
      · rw [if_pos hd]
        exact ih h2
      · rw [if_neg hd]
        rw [List.pairwise_cons]
        refine ⟨?_, ih h2⟩
        intro q hq
        obtain ⟨⟨j, hj, hfd⟩, -⟩ := (historyLoop_spec today ss hist rest).2.1 q hq
        rw [hfd]
        have := h1 j hj
        simp only []
        omega

theorem offsets_length (n : Nat) : (offsets n).length = n := by
  unfold offsets
  rw [List.length_map, List.length_reverse, List.length_range]

theorem offsets_pairwise (n : Nat) : (offsets n).Pairwise (fun a b => b < a) := by
  have h1 : ((List.range n).reverse).Pairwise (fun a b => b < a) :=
    List.pairwise_reverse.mpr (List.pairwise_lt_range n)
  exact h1.map Int.ofNat (fun a b hab => Int.ofNat_lt.mpr hab)

/-- C6. For every window size N among 7, 15, 30 and 90, the aggregator
emits at most N points; every emitted point belongs to a day with
dayNumber = targetDate - streakStart + 1 at least 1; the points run in
chronological order from oldest to newest; and the skipped days contribute
nothing: the perfect-day count is exactly the number of emitted points
with value 100 and the average is computed over the emitted points
alone. -/
theorem fetchHistory_window (N : Nat) (_hN : N ∈ [7, 15, 30, 90]) (today ss : Int)
    (hist : Int → Option DailyRecord) :
    (fetchHistory N today ss hist).1.length ≤ N ∧
    (∀ p ∈ (fetchHistory N today ss hist).1,
      1 ≤ p.dayNumber ∧ p.dayNumber = p.fullDate - ss + 1) ∧
    (fetchHistory N today ss hist).1.Pairwise (fun p q => p.fullDate < q.fullDate) ∧
    (fetchHistory N today ss hist).2.perfectDays =
      ((fetchHistory N today ss hist).1.filter (fun p => p.value = 100)).length ∧
    (fetchHistory N today ss hist).2.average =
      (if (fetchHistory N today ss hist).1.length = 0 then 0
       else jsRound (((fetchHistory N today ss hist).1.map ChartDataPoint.value).sum)
         (fetchHistory N today ss hist).1.length) := by
  obtain ⟨h1, h2, h3, h4, h5⟩ := historyLoop_spec today ss hist (offsets N)
  refine ⟨?_, ?_, ?_, ?_, ?_⟩
  · calc (fetchHistory N today ss hist).1.length ≤ (offsets N).length := h1
      _ = N := offsets_length N
  · intro p hp
    obtain ⟨-, hd1, hd2, -, -⟩ := h2 p hp
    exact ⟨hd1, hd2⟩
  · exact historyLoop_sorted today ss hist (offsets N) (offsets_pairwise N)
  · exact h4
  · have hfst : (fetchHistory N today ss hist).1 =
        (historyLoop today ss hist (offsets N)).points := rfl
    have havg : (fetchHistory N today ss hist).2.average =
        (if (historyLoop today ss hist (offsets N)).validDaysCount > 0
         then jsRound (historyLoop today ss hist (offsets N)).totalPercentage
           (historyLoop today ss hist (offsets N)).validDaysCount
         else 0) := rfl
    rw [havg, hfst, h5, h3]
    rcases Nat.eq_zero_or_pos (historyLoop today ss hist (offsets N)).points.length with h | h
    · rw [h, if_neg (by omega), if_pos rfl]
    · rw [if_pos h, if_neg (by omega)]

/-- Witness for the C6 window theorem at concrete inputs. -/
theorem fetchHistory_window_witness :
    (fetchHistory 7 12 9 sampleHist).1.length ≤ 7 ∧
    (∀ p ∈ (fetchHistory 7 12 9 sampleHist).1,
      1 ≤ p.dayNumber ∧ p.dayNumber = p.fullDate - 9 + 1) ∧
    (fetchHistory 7 12 9 sampleHist).1.Pairwise (fun p q => p.fullDate < q.fullDate) ∧
    (fetchHistory 7 12 9 sampleHist).2.perfectDays =
      ((fetchHistory 7 12 9 sampleHist).1.filter (fun p => p.value = 100)).length ∧
    (fetchHistory 7 12 9 sampleHist).2.average =
      (if (fetchHistory 7 12 9 sampleHist).1.length = 0 then 0
       else jsRound (((fetchHistory 7 12 9 sampleHist).1.map ChartDataPoint.value).sum)
         (fetchHistory 7 12 9 sampleHist).1.length) :=
  fetchHistory_window 7 (by decide) 12 9 sampleHist

/-- C7. Every emitted point carries value
min(round(completedCount / totalHabits * 100), 100), where an absent
record contributes completedCount 0 and totalHabits 6; the value is hence
never above 100 even when completedCount exceeds totalHabits; 3 of 6
habits give value 50 and 6 of 6 give value 100; and the perfect-day
statistic counts exactly the emitted points of value 100. -/
theorem fetchHistory_percentage (N : Nat) (today ss : Int)
    (hist : Int → Option DailyRecord) :
    (∀ p ∈ (fetchHistory N today ss hist).1,
      p.value = min (jsRound (dayCount (hist p.fullDate) * 100) (effTotal (hist p.fullDate))) 100 ∧
      p.value ≤ 100) ∧
    dayValue (some ⟨some 3, some 6⟩) = 50 ∧
    dayValue (some ⟨some 6, some 6⟩) = 100 ∧
    dayValue (some ⟨some 10, some 6⟩) = 100 ∧
    dayValue none = 0 ∧
    (fetchHistory N today ss hist).2.perfectDays =
      ((fetchHistory N today ss hist).1.filter (fun p => p.value = 100)).length := by
  obtain ⟨-, h2, -, h4, -⟩ := historyLoop_spec today ss hist (offsets N)
  refine ⟨?_, by decide, by decide, by decide, by decide, h4⟩
  intro p hp
  obtain ⟨-, -, -, hv, -⟩ := h2 p hp
  refine ⟨hv, ?_⟩
  rw [hv]
  exact Nat.min_le_right _ _

/-- Witness for the C7 percentage theorem at concrete inputs. -/
theorem fetchHistory_percentage_witness :
    (∀ p ∈ (fetchHistory 7 12 9 sampleHist).1,
      p.value = min (jsRound (dayCount (sampleHist p.fullDate) * 100)
        (effTotal (sampleHist p.fullDate))) 100 ∧
      p.value ≤ 100) ∧
    dayValue (some ⟨some 3, some 6⟩) = 50 ∧
    dayValue (some ⟨some 6, some 6⟩) = 100 ∧
    dayValue (some ⟨some 10, some 6⟩) = 100 ∧
    dayValue none = 0 ∧
    (fetchHistory 7 12 9 sampleHist).2.perfectDays =
      ((fetchHistory 7 12 9 sampleHist).1.filter (fun p => p.value = 100)).length :=
  fetchHistory_percentage 7 12 9 sampleHist

/-- C10. The denominator of the per-day percentage is never zero: the
effective total of every record — including an absent record, a record
with no total_habits field, and a record storing total_habits = 0 — is
positive, falling back to the default 6, and in particular every emitted
point reads its denominator from a positive effective total. -/
theorem effTotal_never_zero :
    (∀ r : Option DailyRecord, 0 < effTotal r) ∧
    effTotal none = 6 ∧
    (∀ c, effTotal (some ⟨c, none⟩) = 6) ∧
    (∀ c, effTotal (some ⟨c, some 0⟩) = 6) ∧
    (∀ (N : Nat) (today ss : Int) (hist : Int → Option DailyRecord),
      ∀ p ∈ (fetchHistory N today ss hist).1, 0 < effTotal (hist p.fullDate)) := by
  have hpos : ∀ r : Option DailyRecord, 0 < effTotal r := by
    intro r
    unfold effTotal
    cases hr : r.bind DailyRecord.total_habits with
    | none => simp
    | some t => cases t <;> simp
  refine ⟨hpos, rfl, fun c => rfl, fun c => rfl, ?_⟩
  intro N today ss hist p hp
  exact hpos (hist p.fullDate)

/-- Witness for the C10 denominator theorem at concrete inputs. -/
theorem effTotal_never_zero_witness :
    0 < effTotal (sampleHist 11) ∧ 0 < effTotal (some ⟨some 4, some 0⟩) :=
  ⟨effTotal_never_zero.2.2.2.2 2 12 9 sampleHist ⟨"D3", 11, 100, 6, 3⟩ (by decide),
   effTotal_never_zero.1 (some ⟨some 4, some 0⟩)⟩

/-!
## Tally lemmas
-/

theorem foldl_tallyInc_lookup (keys : List String) (l : List (String × Nat)) (k : String) :
    lookupKey (keys.foldl tallyInc l) k =
      if k ∈ keys ∨ (lookupKey l k).isSome
      then some ((lookupKey l k).getD 0 + keys.count k) else none := by
  induction keys generalizing l with
  | nil => cases h : lookupKey l k <;> simp [h]
  | cons k1 rest ih =>
      rw [List.foldl_cons, ih]
      by_cases h : k = k1
      · subst h
        rw [show lookupKey (tallyInc l k) k = some ((lookupKey l k).getD 0 + 1) from
          lookup_setKey_self l k _]
        simp [List.count_cons]
        omega
      · rw [show lookupKey (tallyInc l k1) k = lookupKey l k from
          lookup_setKey_ne l k1 k _ h]
        simp [List.count_cons, h, Ne.symm h]

theorem tally_lookup (keys : List String) (k : String) :
    lookupKey (tally keys) k = if k ∈ keys then some (keys.count k) else none := by
  unfold tally
  rw [foldl_tallyInc_lookup]
  simp [lookupKey]

theorem setKey_keys (l : List (String × α)) (k : String) (v : α) :
    (setKey l k v).map Prod.fst =
      if (lookupKey l k).isSome then l.map Prod.fst else l.map Prod.fst ++ [k] := by
  induction l with
  | nil => simp [setKey, lookupKey]
  | cons kv rest ih =>
      obtain ⟨k1, w⟩ := kv
      by_cases h : k1 = k
      · subst h
        simp [setKey, lookupKey]
      · simp only [setKey, lookupKey, if_neg h, List.map_cons, ih]
        by_cases h2 : (lookupKey rest k).isSome <;> simp [h2]

theorem tallyInc_keys_nodup (l : List (String × Nat)) (k : String)
    (h : (l.map Prod.fst).Nodup) : ((tallyInc l k).map Prod.fst).Nodup := by
  unfold tallyInc
  rw [setKey_keys]
  by_cases h2 : (lookupKey l k).isSome
  · rw [if_pos h2]
    exact h
  · rw [if_neg h2]
    have h3 : k ∉ l.map Prod.fst :=
      (lookup_eq_none_iff l k).mp (Option.not_isSome_iff_eq_none.mp h2)
    simp [List.nodup_append, h, h3]

theorem tally_keys_nodup (keys : List String) : ((tally keys).map Prod.fst).Nodup := by
  have h : ∀ (ks : List String) (l : List (String × Nat)),
      (l.map Prod.fst).Nodup → ((ks.foldl tallyInc l).map Prod.fst).Nodup := by
    intro ks
    induction ks with
    | nil => intro l hl; exact hl
    | cons k1 rest ih => intro l hl; exact ih _ (tallyInc_keys_nodup l k1 hl)
  exact h keys [] (by simp)

theorem mem_tally_iff (keys : List String) (k : String) (c : Nat) :
    (k, c) ∈ tally keys ↔ k ∈ keys ∧ c = keys.count k := by
  constructor
  · intro h
    have h2 := mem_lookup_of_nodup _ _ _ (tally_keys_nodup keys) h
    rw [tally_lookup] at h2
    by_cases h3 : k ∈ keys
    · rw [if_pos h3] at h2
      injection h2 with h4
      exact ⟨h3, h4.symm⟩
    · rw [if_neg h3] at h2
      cases h2
  · intro hc
    obtain ⟨h1, h2⟩ := hc
    subst h2
    exact lookup_eq_some_mem _ _ _ (by rw [tally_lookup, if_pos h1])

theorem tally_counts_pos (keys : List String) : ∀ kv ∈ tally keys, 0 < kv.2 := by
  intro kv hkv
  obtain ⟨k, c⟩ := kv
  rw [mem_tally_iff] at hkv
  obtain ⟨h1, h2⟩ := hkv
  subst h2
  exact List.count_pos_iff.mpr h1

theorem tally_ne_nil (keys : List String) (h : keys ≠ []) : tally keys ≠ [] := by
  obtain ⟨k, hk⟩ := List.exists_mem_of_ne_nil keys h
  intro hnil
  have h2 := tally_lookup keys k
  rw [hnil, if_pos hk] at h2
  simp [lookupKey] at h2

/-!
## The first-maximum scan
-/

theorem foldl_maxStep_spec (l : List (String × Nat)) (m : String × Nat) :
    (∀ x ∈ l, x.2 ≤ (l.foldl maxStep m).2) ∧
    m.2 ≤ (l.foldl maxStep m).2 ∧
    (l.foldl maxStep m = m ∨
      ∃ pre post, l = pre ++ (l.foldl maxStep m) :: post ∧
        m.2 < (l.foldl maxStep m).2 ∧ ∀ x ∈ pre, x.2 < (l.foldl maxStep m).2) := by
  induction l generalizing m with
  | nil => exact ⟨by simp, Nat.le_refl _, Or.inl rfl⟩
  | cons x rest ih =>
      rw [List.foldl_cons]
      by_cases hgt : x.2 > m.2
      · have hms : maxStep m x = x := by unfold maxStep; rw [if_pos hgt]
        rw [hms]
        obtain ⟨A, B, C⟩ := ih x
        refine ⟨?_, by omega, ?_⟩
        · intro y hy
          rcases List.mem_cons.mp hy with hy | hy
          · rw [hy]; exact B
          · exact A y hy
        · right
          rcases C with hc | ⟨pre, post, h1, h2, h3⟩
          · exact ⟨[], rest, by simp [hc], by rw [hc]; omega, by simp⟩
          · refine ⟨x :: pre, post, by rw [List.cons_append, ← h1], by omega, ?_⟩
            intro y hy
            rcases List.mem_cons.mp hy with hy | hy
            · rw [hy]; exact h2
            · exact h3 y hy
      · have hms : maxStep m x = m := by unfold maxStep; rw [if_neg hgt]
        rw [hms]
        obtain ⟨A, B, C⟩ := ih m
        refine ⟨?_, B, ?_⟩
        · intro y hy
          rcases List.mem_cons.mp hy with hy | hy
          · rw [hy]; omega
          · exact A y hy
        · rcases C with hc | ⟨pre, post, h1, h2, h3⟩
          · exact Or.inl hc
          · right
            refine ⟨x :: pre, post, by rw [List.cons_append, ← h1], h2, ?_⟩
            intro y hy
            rcases List.mem_cons.mp hy with hy | hy
            · rw [hy]; omega
            · exact h3 y hy

theorem firstMax_spec (l : List (String × Nat)) (hne : l ≠ [])
    (hpos : ∀ x ∈ l, 0 < x.2) :
    (∃ pre post, l = pre ++ firstMax l :: post ∧ ∀ x ∈ pre, x.2 < (firstMax l).2) ∧
    (∀ x ∈ l, x.2 ≤ (firstMax l).2) := by
  obtain ⟨A, B, C⟩ := foldl_maxStep_spec l ("", 0)
  refine ⟨?_, A⟩
  rcases C with hc | ⟨pre, post, h1, h2, h3⟩
  · exfalso
    obtain ⟨x, hx⟩ := List.exists_mem_of_ne_nil l hne
    have h4 := A x hx
    have h5 := hpos x hx
    rw [hc] at h4
    simp at h4
    omega
  · exact ⟨pre, post, h1, h3⟩

theorem topOf_spec (keys : List String) (hk : keys ≠ []) :
    (firstMax (tally keys)).1 ∈ keys ∧
    (firstMax (tally keys)).2 = keys.count (firstMax (tally keys)).1 ∧
    (∀ x ∈ keys, keys.count x ≤ (firstMax (tally keys)).2) ∧
    (∃ pre post, tally keys = pre ++ firstMax (tally keys) :: post ∧
      ∀ x ∈ pre, x.2 < (firstMax (tally keys)).2) := by
  obtain ⟨hsplit, hmax⟩ := firstMax_spec (tally keys) (tally_ne_nil keys hk)
    (tally_counts_pos keys)
  have hmem : firstMax (tally keys) ∈ tally keys := by
    obtain ⟨pre, post, h1, -⟩ := hsplit
    have h2 : firstMax (tally keys) ∈ pre ++ firstMax (tally keys) :: post :=
      List.mem_append_right pre (List.mem_cons_self _ _)
    rw [← h1] at h2
    exact h2
  have hkc := (mem_tally_iff keys (firstMax (tally keys)).1 (firstMax (tally keys)).2).mp hmem
  refine ⟨hkc.1, hkc.2, ?_, hsplit⟩
  intro x hx
  have hxm : (x, keys.count x) ∈ tally keys := (mem_tally_iff keys x _).mpr ⟨hx, rfl⟩
  exact hmax (x, keys.count x) hxm

/-!
## mergeSort comparator facts
-/

theorem rankLE_trans : ∀ a b c : String × Nat, rankLE a b → rankLE b c → rankLE a c := by
  intro a b c h1 h2
  simp [rankLE] at h1 h2 ⊢
  omega

theorem rankLE_total : ∀ a b : String × Nat, rankLE a b || rankLE b a := by
  intro a b
  simp [rankLE]
  omega

/-!
## Trigger insight theorems
-/

/-- C9. The empty trigger-log window does not fail: it produces exactly
the zero-value insight with totalLogs 0, no top emotion, no top context
and an empty ranking. -/
theorem processTriggerInsights_empty :
    processTriggerInsights [] = ⟨0, none, none, []⟩ := rfl

/-- C8. For a non-empty trigger-log list: totalLogs is the number of
logs; topEmotion is an emotion of maximal occurrence count whose
percentage is round(count / totalLogs * 100), and every emotion tallied
before it (in first-occurrence order) has a strictly smaller count, so the
first-seen emotion wins ties; topContext is the analogous maximum over
context values; and the ranking is the first three entries of a stable
descending sort of the emotion tally — a permutation of the tally sorted
by count descending in which any two entries in tally order with
non-increasing counts keep their relative order. -/
theorem processTriggerInsights_spec (logs : List TriggerLog) (h : logs ≠ []) :
    (processTriggerInsights logs).totalLogs = logs.length ∧
    (∃ e : TopEntry, (processTriggerInsights logs).topEmotion = some e ∧
      e.name ∈ logs.map TriggerLog.emotion ∧
      e.count = (logs.map TriggerLog.emotion).count e.name ∧
      (∀ x ∈ logs.map TriggerLog.emotion,
        (logs.map TriggerLog.emotion).count x ≤ e.count) ∧
      e.percentage = jsRound (e.count * 100) logs.length ∧
      (∃ pre post, tally (logs.map TriggerLog.emotion) = pre ++ (e.name, e.count) :: post ∧
        ∀ x ∈ pre, x.2 < e.count)) ∧
    (∃ e : TopEntry, (processTriggerInsights logs).topContext = some e ∧
      e.name ∈ logs.map TriggerLog.context ∧
      e.count = (logs.map TriggerLog.context).count e.name ∧
      (∀ x ∈ logs.map TriggerLog.context,
        (logs.map TriggerLog.context).count x ≤ e.count) ∧
      e.percentage = jsRound (e.count * 100) logs.length ∧
      (∃ pre post, tally (logs.map TriggerLog.context) = pre ++ (e.name, e.count) :: post ∧
        ∀ x ∈ pre, x.2 < e.count)) ∧
    (∃ sorted : List (String × Nat),
      (tally (logs.map TriggerLog.emotion)).Perm sorted ∧
      sorted.Pairwise (fun a b => b.2 ≤ a.2) ∧
      (processTriggerInsights logs).ranking = sorted.take 3 ∧
      (∀ a b : String × Nat, [a, b].Sublist (tally (logs.map TriggerLog.emotion)) →
        b.2 ≤ a.2 → [a, b].Sublist sorted) ∧
      (∀ x ∈ (processTriggerInsights logs).ranking,
        x.1 ∈ logs.map TriggerLog.emotion ∧
        x.2 = (logs.map TriggerLog.emotion).count x.1)) := by
  have hlen : ¬(logs.length = 0) := fun hh => h (List.length_eq_zero.mp hh)
  have hEm : logs.map TriggerLog.emotion ≠ [] := by simpa using h
  have hCt : logs.map TriggerLog.context ≠ [] := by simpa using h
  have htot : (processTriggerInsights logs).totalLogs = logs.length := by
    unfold processTriggerInsights
    rw [if_neg hlen]
  have htopE : (processTriggerInsights logs).topEmotion =
      some ⟨(firstMax (tally (logs.map TriggerLog.emotion))).1,
        (firstMax (tally (logs.map TriggerLog.emotion))).2,
        jsRound ((firstMax (tally (logs.map TriggerLog.emotion))).2 * 100) logs.length⟩ := by
    unfold processTriggerInsights
    rw [if_neg hlen]
  have htopC : (processTriggerInsights logs).topContext =
      some ⟨(firstMax (tally (logs.map TriggerLog.context))).1,
        (firstMax (tally (logs.map TriggerLog.context))).2,
        jsRound ((firstMax (tally (logs.map TriggerLog.context))).2 * 100) logs.length⟩ := by
    unfold processTriggerInsights
    rw [if_neg hlen]
  have hrank : (processTriggerInsights logs).ranking =
      ((tally (logs.map TriggerLog.emotion)).mergeSort rankLE).take 3 := by
    unfold processTriggerInsights
    rw [if_neg hlen]
  obtain ⟨he1, he2, he3, he4⟩ := topOf_spec (logs.map TriggerLog.emotion) hEm
  obtain ⟨hc1, hc2, hc3, hc4⟩ := topOf_spec (logs.map TriggerLog.context) hCt
  refine ⟨htot, ⟨_, htopE, he1, he2, he3, rfl, he4⟩, ⟨_, htopC, hc1, hc2, hc3, rfl, hc4⟩, ?_⟩
  refine ⟨(tally (logs.map TriggerLog.emotion)).mergeSort rankLE,
    (List.mergeSort_perm _ rankLE).symm, ?_, hrank, ?_, ?_⟩
  · exact (List.sorted_mergeSort rankLE_trans rankLE_total _).imp
      (fun hab => by simpa [rankLE] using hab)
  · intro a b hsub hle
    exact List.sublist_mergeSort rankLE_trans rankLE_total
      (by simp [List.pairwise_cons, rankLE, hle]) hsub
  · intro x hx
    rw [hrank] at hx
    have hx2 : x ∈ (tally (logs.map TriggerLog.emotion)).mergeSort rankLE :=
      (List.take_sublist 3 _).mem hx
    have hx3 : x ∈ tally (logs.map TriggerLog.emotion) := List.mem_mergeSort.mp hx2
    obtain ⟨n, c⟩ := x
    exact (mem_tally_iff _ _ _).mp hx3

/-- Witness for the C8 insight theorem at the tally scenario of the spec
(anxiety 5, boredom 3, anger 3 over 11 logs). -/
theorem processTriggerInsights_spec_witness :
    (processTriggerInsights sampleLogs).totalLogs = sampleLogs.length ∧
    (∃ e : TopEntry, (processTriggerInsights sampleLogs).topEmotion = some e ∧
      e.name ∈ sampleLogs.map TriggerLog.emotion ∧
      e.count = (sampleLogs.map TriggerLog.emotion).count e.name ∧
      (∀ x ∈ sampleLogs.map TriggerLog.emotion,
        (sampleLogs.map TriggerLog.emotion).count x ≤ e.count) ∧
      e.percentage = jsRound (e.count * 100) sampleLogs.length ∧
      (∃ pre post, tally (sampleLogs.map TriggerLog.emotion) =
          pre ++ (e.name, e.count) :: post ∧
        ∀ x ∈ pre, x.2 < e.count)) ∧
    (∃ e : TopEntry, (processTriggerInsights sampleLogs).topContext = some e ∧
      e.name ∈ sampleLogs.map TriggerLog.context ∧
      e.count = (sampleLogs.map TriggerLog.context).count e.name ∧
      (∀ x ∈ sampleLogs.map TriggerLog.context,
        (sampleLogs.map TriggerLog.context).count x ≤ e.count) ∧
      e.percentage = jsRound (e.count * 100) sampleLogs.length ∧
      (∃ pre post, tally (sampleLogs.map TriggerLog.context) =
          pre ++ (e.name, e.count) :: post ∧
        ∀ x ∈ pre, x.2 < e.count)) ∧
    (∃ sorted : List (String × Nat),
      (tally (sampleLogs.map TriggerLog.emotion)).Perm sorted ∧
      sorted.Pairwise (fun a b => b.2 ≤ a.2) ∧
      (processTriggerInsights sampleLogs).ranking = sorted.take 3 ∧
      (∀ a b : String × Nat, [a, b].Sublist (tally (sampleLogs.map TriggerLog.emotion)) →
        b.2 ≤ a.2 → [a, b].Sublist sorted) ∧
      (∀ x ∈ (processTriggerInsights sampleLogs).ranking,
        x.1 ∈ sampleLogs.map TriggerLog.emotion ∧
        x.2 = (sampleLogs.map TriggerLog.emotion).count x.1)) :=
  processTriggerInsights_spec sampleLogs (by decide)

end Desviciar
